import Mathlib

/-!
Verification of the event_chains repository: a shallow embedding of the
chain-composition engine (src/core/event_chain.rs), the outcome model
(src/core/event_result.rs, src/core/event_failure.rs) and the four policy
middleware (retry, circuit breaker, rate limiter, metrics), with theorems
settling the specification's claims about them.

Modelling conventions:
* Rust `Instant`/`Duration` values become `Nat` (an abstract tick count);
  wall-clock "now" readings become explicit parameters.
* The token bucket's `f64` token count becomes `Rat`.
* `&mut EventContext` threading becomes explicit state passing: an event or
  continuation is a function `Ctx → EventResult Unit × Ctx`.
* Side effects that the claims talk about (which pipelines were invoked, the
  delays slept between retry attempts) are returned as explicit traces.
-/

namespace EventChains

/-- Embeds `EventResult` from src/core/event_result.rs: tri-state outcome
distinguishing success, business failure and infrastructure
(middleware) failure. -/
inductive EventResult (T : Type) where
  | Success : T → EventResult T
  | Failure : String → EventResult T
  | MiddlewareFailure : String → EventResult T
deriving Repr, DecidableEq

namespace EventResult

/-- `EventResult::is_success`. -/
def is_success {T : Type} : EventResult T → Bool
  | Success _ => true
  | Failure _ => false
  | MiddlewareFailure _ => false

/-- `EventResult::is_failure`. -/
def is_failure {T : Type} : EventResult T → Bool
  | Success _ => false
  | Failure _ => true
  | MiddlewareFailure _ => true

/-- `EventResult::is_event_failure`. -/
def is_event_failure {T : Type} : EventResult T → Bool
  | Success _ => false
  | Failure _ => true
  | MiddlewareFailure _ => false

/-- `EventResult::is_middleware_failure`. -/
def is_middleware_failure {T : Type} : EventResult T → Bool
  | Success _ => false
  | Failure _ => false
  | MiddlewareFailure _ => true

/-- `EventResult::get_failure_info`: `(is_middleware_failure, message)` for a
failure, `none` for a success. -/
def get_failure_info {T : Type} : EventResult T → Option (Bool × String)
  | Success _ => none
  | Failure msg => some (false, msg)
  | MiddlewareFailure msg => some (true, msg)

end EventResult

/-- Embeds `EventFailure` from src/core/event_failure.rs. The `timestamp`
field (wall-clock seconds taken from `SystemTime::now`) is not observable by
any claim and is omitted from the model. -/
structure EventFailure where
  event_name : String
  error_message : String
  is_middleware_failure : Bool
deriving Repr, DecidableEq

namespace EventFailure

/-- `EventFailure::new`: a business (event) failure record. -/
def new (event_name error_message : String) : EventFailure :=
  ⟨event_name, error_message, false⟩

/-- `EventFailure::middleware_failure`: an infrastructure failure record. -/
def middleware_failure (event_name error_message : String) : EventFailure :=
  ⟨event_name, error_message, true⟩

end EventFailure

/-- `ChainStatus` (re-exported in src/core/event_chain.rs; the three variants
`Completed`, `CompletedWithWarnings`, `Failed` appear in its `Display` impl). -/
inductive ChainStatus where
  | Completed
  | CompletedWithWarnings
  | Failed
deriving Repr, DecidableEq

/-- Modelled from the spec: `ChainResult` (src/core/chain_result.rs is not
under src/). Spec section 3: `{status, success, failures}` with
`success = (status != Failed)`. -/
structure ChainResult where
  status : ChainStatus
  success : Bool
  failures : List EventFailure
deriving Repr, DecidableEq

namespace ChainResult

/-- Modelled from the spec: `ChainResult::success()` — used by
`EventChain::execute` when no failure was recorded; spec section 4.1 step 4:
return `Completed` (no failures); spec section 3: `success = (status != Failed)`. -/
def mkSuccess : ChainResult :=
  ⟨ChainStatus.Completed, true, []⟩

/-- Modelled from the spec: `ChainResult::failure(failures)` — used by
`EventChain::execute` on a stop-now decision; spec section 4.1 step 3:
"return `Failed` with accumulated failures"; `success = false`. -/
def mkFailure (failures : List EventFailure) : ChainResult :=
  ⟨ChainStatus.Failed, false, failures⟩

/-- Modelled from the spec: `ChainResult::partial_success(failures)` — used by
`EventChain::execute` when all events were processed but ≥1 failure was
recorded; spec section 4.1 step 4: `CompletedWithWarnings`, success still true. -/
def mkPartialSuccess (failures : List EventFailure) : ChainResult :=
  ⟨ChainStatus.CompletedWithWarnings, true, failures⟩

end ChainResult

/-- `FaultToleranceMode` (src/core/fault_tolerance_mode.rs is not under src/;
the three variants are fixed by the `match self.fault_tolerance` in
`EventChain::execute` and by spec section 3). -/
inductive FaultToleranceMode where
  | Strict
  | Lenient
  | BestEffort
deriving Repr, DecidableEq

/-- The `ChainableEvent` capability (src/events/chainable_event.rs is not
under src/; interface from spec section 6): `execute(context) -> Outcome<Unit>`
and `name() -> string`. Context mutation is modelled by returning the new
context. -/
structure Event (Ctx : Type) where
  name : String
  run : Ctx → EventResult Unit × Ctx

/-- The `EventMiddleware` capability (src/events/event_middleware.rs is not
under src/; interface from spec section 6):
`execute(event, context, next) -> Outcome<Unit>` where `next` invokes the
remainder of the pipeline. -/
structure Middleware (Ctx : Type) where
  run : Event Ctx → Ctx → (Ctx → EventResult Unit × Ctx) → EventResult Unit × Ctx

/-- Embeds `EventChain` from src/core/event_chain.rs: an ordered event list,
an ordered middleware list and a fault-tolerance mode. -/
structure EventChain (Ctx : Type) where
  events : List (Event Ctx)
  middlewares : List (Middleware Ctx)
  fault_tolerance : FaultToleranceMode

/-- Embeds `EventChain::execute_middleware_recursive`: recursion index `i`
runs the middleware at position `len - 1 - i` (reverse registration order),
passing a continuation that recurses at `i + 1`; once `i` reaches the
middleware count, the event itself runs. -/
def execute_middleware_recursive {Ctx : Type} (mws : List (Middleware Ctx))
    (e : Event Ctx) (i : Nat) (ctx : Ctx) : EventResult Unit × Ctx :=
  if h : i ≥ mws.length then
    e.run ctx
  else
    (mws.get ⟨mws.length - 1 - i, by omega⟩).run e ctx
      (fun c => execute_middleware_recursive mws e (i + 1) c)
termination_by mws.length - i
decreasing_by simp_wf; omega

/-- Embeds `EventChain::execute_with_middleware`: with no middleware the event
runs directly, otherwise the recursive pipeline starts at index 0. -/
def execute_with_middleware {Ctx : Type} (mws : List (Middleware Ctx))
    (e : Event Ctx) (ctx : Ctx) : EventResult Unit × Ctx :=
  if mws.isEmpty then e.run ctx
  else execute_middleware_recursive mws e 0 ctx

/-- Output of one chain execution: the `ChainResult`, the final context and
the number of event pipelines that were invoked (the loop in
`EventChain::execute` invokes exactly one pipeline per iteration, so the
invoked events are exactly the first `invoked` registered events). -/
structure ChainOut (Ctx : Type) where
  result : ChainResult
  ctx : Ctx
  invoked : Nat
deriving Repr

/-- The failure record built by `EventChain::execute` for a failing outcome:
destructure `get_failure_info` (with the source's `(false, "Unknown error")`
fallback for the unreachable `None` case) and construct an event or
middleware `EventFailure` accordingly. -/
def failureRecordOf {Ctx : Type} (e : Event Ctx) (r : EventResult Unit) :
    EventFailure :=
  let info := (r.get_failure_info).getD (false, "Unknown error")
  if info.1 then EventFailure.middleware_failure e.name info.2
  else EventFailure.new e.name info.2

/-- Embeds the event loop of `EventChain::execute`: `failures` and `count`
are the accumulated failure records and the number of pipelines invoked so
far. Each iteration invokes the event's middleware pipeline, records a
failure if the outcome is one, and applies the fault-tolerance decision
(in the BestEffort arm the source tests the `is_middleware_failure`
component destructured from `get_failure_info`, which for a failing outcome
equals `EventResult::is_middleware_failure`). -/
def executeFrom {Ctx : Type} (mode : FaultToleranceMode)
    (mws : List (Middleware Ctx)) :
    List (Event Ctx) → Ctx → List EventFailure → Nat → ChainOut Ctx
  | [], ctx, failures, count =>
      ⟨if failures.isEmpty then ChainResult.mkSuccess
        else ChainResult.mkPartialSuccess failures, ctx, count⟩
  | e :: rest, ctx, failures, count =>
      let r := execute_with_middleware mws e ctx
      if r.1.is_failure then
        let failures1 := failures ++ [failureRecordOf e r.1]
        match mode with
        | FaultToleranceMode.Strict =>
            ⟨ChainResult.mkFailure failures1, r.2, count + 1⟩
        | FaultToleranceMode.Lenient =>
            executeFrom mode mws rest r.2 failures1 (count + 1)
        | FaultToleranceMode.BestEffort =>
            if r.1.is_middleware_failure then
              ⟨ChainResult.mkFailure failures1, r.2, count + 1⟩
            else executeFrom mode mws rest r.2 failures1 (count + 1)
      else
        executeFrom mode mws rest r.2 failures (count + 1)

/-- Embeds `EventChain::execute`: run the loop from an empty failure list. -/
def EventChain.execute {Ctx : Type} (chain : EventChain Ctx) (ctx : Ctx) :
    ChainOut Ctx :=
  executeFrom chain.fault_tolerance chain.middlewares chain.events ctx [] 0

/-- The sequence of pipeline outcomes obtained by running every event's
middleware pipeline in order, threading the context (the outcomes the loop in
`EventChain::execute` would observe as long as it keeps going). -/
def pipelineOutcomes {Ctx : Type} (mws : List (Middleware Ctx)) :
    List (Event Ctx) → Ctx → List (EventResult Unit)
  | [], _ => []
  | e :: rest, ctx =>
      let r := execute_with_middleware mws e ctx
      r.1 :: pipelineOutcomes mws rest r.2

/-! ## Retry middleware (src/middleware/retry.rs) -/

/-- Embeds `BackoffStrategy` from src/middleware/retry.rs. Durations are
`Nat` tick counts. -/
inductive BackoffStrategy where
  | NoDelay
  | Fixed (delay : Nat)
  | Exponential (initial maxDelay : Nat)
  | Linear (initial increment : Nat)
deriving Repr, DecidableEq

/-- Embeds `RetryMiddleware::calculate_delay` for the attempt that just
failed (attempt numbers start at 1): `None → 0`, `Fixed(d) → d`,
`Exponential → min (initial * multiplier) max` with the multiplier computed
by the source as the u32 value `2u32.pow(attempt as u32 - 1)`, embedded as
`2 ^ (attempt - 1) % 2 ^ 32` (wrapping semantics of an overflowed release
build; a debug build would panic at the overflow, from attempt 33 on), and
`Linear → initial + increment * (attempt-1)`. -/
def calculate_delay (backoff : BackoffStrategy) (attempt : Nat) : Nat :=
  match backoff with
  | BackoffStrategy.NoDelay => 0
  | BackoffStrategy.Fixed delay => delay
  | BackoffStrategy.Exponential initial maxDelay =>
      min (initial * (2 ^ (attempt - 1) % 2 ^ 32)) maxDelay
  | BackoffStrategy.Linear initial increment =>
      initial + increment * (attempt - 1)

/-- Output of `RetryMiddleware::execute`: the final outcome, the final
context, the number of downstream invocations performed (`attempts` in the
source) and the trace of delays computed between consecutive attempts (the
source skips the sleep syscall when the computed delay is zero; the trace
records the computed delay, a zero entry standing for no sleep). -/
structure RetryOut (Ctx : Type) where
  result : EventResult Unit
  ctx : Ctx
  attempts : Nat
  sleeps : List Nat
deriving Repr

/-- Embeds the `loop` body of `RetryMiddleware::execute`: increment the
attempt counter, invoke downstream, return on `Success` or
`MiddlewareFailure`; on a business `Failure` return once
`attempts ≥ max_retries`, otherwise sleep `calculate_delay attempts` and
loop. -/
def retryLoop {Ctx : Type} (backoff : BackoffStrategy)
    (next : Ctx → EventResult Unit × Ctx) (max_retries : Nat)
    (attempts : Nat) (ctx : Ctx) (sleeps : List Nat) : RetryOut Ctx :=
  let r := next ctx
  match r.1 with
  | EventResult.Success u => ⟨EventResult.Success u, r.2, attempts + 1, sleeps⟩
  | EventResult.MiddlewareFailure m =>
      ⟨EventResult.MiddlewareFailure m, r.2, attempts + 1, sleeps⟩
  | EventResult.Failure err =>
      if attempts + 1 ≥ max_retries then
        ⟨EventResult.Failure err, r.2, attempts + 1, sleeps⟩
      else
        retryLoop backoff next max_retries (attempts + 1) r.2
          (sleeps ++ [calculate_delay backoff (attempts + 1)])
termination_by max_retries - attempts
decreasing_by simp_wf; omega

/-- Embeds `RetryMiddleware::execute` for a retry middleware configured with
`max_retries` and `backoff`: run the loop from `attempts = 0`. -/
def RetryMiddleware.execute {Ctx : Type} (max_retries : Nat)
    (backoff : BackoffStrategy) (next : Ctx → EventResult Unit × Ctx)
    (ctx : Ctx) : RetryOut Ctx :=
  retryLoop backoff next max_retries 0 ctx []

/-- Context reached after `n` downstream invocations starting from `ctx`. -/
def iterNext {Ctx : Type} (next : Ctx → EventResult Unit × Ctx) :
    Nat → Ctx → Ctx
  | 0, c => c
  | n + 1, c => iterNext next n (next c).2

/-! ## Circuit breaker middleware (src/middleware/circuit_breaker.rs) -/

/-- Embeds `CircuitState`. -/
inductive CircuitState where
  | Closed
  | Open
  | HalfOpen
deriving Repr, DecidableEq

/-- Embeds `CircuitBreakerState`. `Instant`s are `Nat` tick counts. -/
structure CircuitBreakerState where
  state : CircuitState
  failure_count : Nat
  success_count : Nat
  last_failure_time : Option Nat
  opened_at : Option Nat
deriving Repr, DecidableEq

/-- `CircuitBreakerState::new`. -/
def CircuitBreakerState.new : CircuitBreakerState :=
  ⟨CircuitState.Closed, 0, 0, none, none⟩

/-- The configuration fields of `CircuitBreakerMiddleware`:
`failure_threshold`, `success_threshold` and `timeout` (the open timeout). -/
structure CircuitBreakerConfig where
  failure_threshold : Nat
  success_threshold : Nat
  timeout : Nat
deriving Repr, DecidableEq

namespace CircuitBreakerMiddleware

/-- Embeds `CircuitBreakerMiddleware::should_attempt_reset` at time `now`:
true iff the circuit is Open, `opened_at` is set and
`now - opened_at ≥ timeout`. -/
def should_attempt_reset (cfg : CircuitBreakerConfig)
    (s : CircuitBreakerState) (now : Nat) : Bool :=
  if s.state ≠ CircuitState.Open then false
  else
    match s.opened_at with
    | some t => decide (now - t ≥ cfg.timeout)
    | none => false

/-- Embeds `CircuitBreakerMiddleware::record_success`: reset the failure
count; in HalfOpen count the success and close the circuit (counters reset,
`opened_at` cleared) once `success_threshold` consecutive successes occur; in
Open (defensive branch) close directly. -/
def record_success (cfg : CircuitBreakerConfig) (s : CircuitBreakerState) :
    CircuitBreakerState :=
  let s0 := { s with failure_count := 0 }
  match s0.state with
  | CircuitState.Closed => s0
  | CircuitState.HalfOpen =>
      let s1 := { s0 with success_count := s0.success_count + 1 }
      if s1.success_count ≥ cfg.success_threshold then
        { s1 with state := CircuitState.Closed, success_count := 0,
                  opened_at := none }
      else s1
  | CircuitState.Open =>
      { s0 with state := CircuitState.Closed, success_count := 0,
                opened_at := none }

/-- Embeds `CircuitBreakerMiddleware::record_failure` at time `now`: record
`last_failure_time`; in Closed increment the failure count and open the
circuit (recording `opened_at := now`) once it reaches `failure_threshold`;
in HalfOpen reopen immediately with `opened_at` refreshed; in Open only the
failure time updates. -/
def record_failure (cfg : CircuitBreakerConfig) (s : CircuitBreakerState)
    (now : Nat) : CircuitBreakerState :=
  let s0 := { s with last_failure_time := some now }
  match s0.state with
  | CircuitState.Closed =>
      let s1 := { s0 with failure_count := s0.failure_count + 1 }
      if s1.failure_count ≥ cfg.failure_threshold then
        { s1 with state := CircuitState.Open, opened_at := some now }
      else s1
  | CircuitState.HalfOpen =>
      { s0 with state := CircuitState.Open, success_count := 0,
                opened_at := some now }
  | CircuitState.Open => s0

end CircuitBreakerMiddleware

/-- Output of `CircuitBreakerMiddleware::execute`: outcome, final context,
final breaker state, and whether downstream was invoked. -/
structure CBOut (Ctx : Type) where
  result : EventResult Unit
  ctx : Ctx
  state : CircuitBreakerState
  invoked : Bool
deriving Repr

/-- Embeds `CircuitBreakerMiddleware::execute` at time `now`: first, if
`should_attempt_reset` holds, move lazily to HalfOpen (success count reset);
then, if the (possibly updated) state is Open, return a business `Failure`
without invoking downstream; otherwise invoke downstream once and record the
outcome in the breaker state. -/
def CircuitBreakerMiddleware.execute {Ctx : Type}
    (cfg : CircuitBreakerConfig) (s : CircuitBreakerState) (now : Nat)
    (e : Event Ctx) (ctx : Ctx)
    (next : Ctx → EventResult Unit × Ctx) : CBOut Ctx :=
  let s1 :=
    if CircuitBreakerMiddleware.should_attempt_reset cfg s now then
      { s with state := CircuitState.HalfOpen, success_count := 0 }
    else s
  match s1.state with
  | CircuitState.Open =>
      ⟨EventResult.Failure ("Circuit breaker is OPEN for " ++ e.name),
        ctx, s1, false⟩
  | _ =>
      let r := next ctx
      let s2 :=
        match r.1 with
        | EventResult.Success _ => CircuitBreakerMiddleware.record_success cfg s1
        | _ => CircuitBreakerMiddleware.record_failure cfg s1 now
      ⟨r.1, r.2, s2, true⟩

/-! ## Rate limiter middleware (src/middleware/rate_limit.rs) -/

/-- Embeds `RateLimiter`'s shared state together with its configuration.
The `f64` token count and timestamps become `Rat` (timestamps in seconds). -/
structure RateLimiter where
  tokens : Rat
  max_tokens : Rat
  refill_rate : Rat
  last_refill : Rat
deriving Repr, DecidableEq

namespace RateLimiter

/-- `RateLimiter::new(max_tokens, refill_rate)` at creation time `now`:
the bucket starts full. -/
def new (max_tokens refill_rate now : Rat) : RateLimiter :=
  ⟨max_tokens, max_tokens, refill_rate, now⟩

/-- Embeds `RateLimiter::refill` at time `now`: if any time elapsed since the
last refill, add `elapsed * refill_rate` tokens, capped at `max_tokens`, and
record the refill time. -/
def refill (b : RateLimiter) (now : Rat) : RateLimiter :=
  let elapsed := now - b.last_refill
  if elapsed > 0 then
    { b with tokens := min (b.tokens + elapsed * b.refill_rate) b.max_tokens,
             last_refill := now }
  else b

/-- Embeds `RateLimiter::try_consume` with strategy `Block` at time `now`
(the `Wait` strategy loops with wall-clock sleeps and re-enters at a later
time; only the `Block` path is needed by the claims): refill, then consume
one token if at least one is available, else report rejection. Returns
whether a token was consumed together with the new bucket state. -/
def try_consume_block (b : RateLimiter) (now : Rat) : Bool × RateLimiter :=
  let b1 := b.refill now
  if b1.tokens ≥ 1 then (true, { b1 with tokens := b1.tokens - 1 })
  else (false, b1)

end RateLimiter

/-- Output of `RateLimitMiddleware::execute`: outcome, final context, final
bucket state, and whether downstream was invoked. -/
structure RLOut (Ctx : Type) where
  result : EventResult Unit
  ctx : Ctx
  bucket : RateLimiter
  invoked : Bool
deriving Repr

/-- Embeds `RateLimitMiddleware::execute` with strategy `Block` at time
`now`: on a consumed token invoke downstream; on rejection return the
business `Failure("Rate limit exceeded")` without invoking downstream. -/
def RateLimitMiddleware.execute {Ctx : Type} (b : RateLimiter) (now : Rat)
    (ctx : Ctx) (next : Ctx → EventResult Unit × Ctx) : RLOut Ctx :=
  let c := RateLimiter.try_consume_block b now
  if c.1 then
    let r := next ctx
    ⟨r.1, r.2, c.2, true⟩
  else
    ⟨EventResult.Failure "Rate limit exceeded", ctx, c.2, false⟩

/-! ## Metrics middleware (src/middleware/metrics.rs) -/

/-- `u64::MAX`, the initial `min_duration_micros`. -/
def U64_MAX : Nat := 2 ^ 64 - 1

/-- Embeds `EventMetrics`. Durations are `Nat` microsecond counts. -/
structure EventMetrics where
  event_name : String
  total_executions : Nat
  successful_executions : Nat
  failed_executions : Nat
  total_duration_micros : Nat
  min_duration_micros : Nat
  max_duration_micros : Nat
deriving Repr, DecidableEq

namespace EventMetrics

/-- `EventMetrics::new`. -/
def new (event_name : String) : EventMetrics :=
  ⟨event_name, 0, 0, 0, 0, U64_MAX, 0⟩

/-- Embeds `EventMetrics::record`: bump the totals and fold the duration into
the running sum/min/max. -/
def record (m : EventMetrics) (duration_micros : Nat) (success : Bool) :
    EventMetrics :=
  { m with
    total_executions := m.total_executions + 1,
    successful_executions :=
      if success then m.successful_executions + 1 else m.successful_executions,
    failed_executions :=
      if success then m.failed_executions else m.failed_executions + 1,
    total_duration_micros := m.total_duration_micros + duration_micros,
    min_duration_micros := min m.min_duration_micros duration_micros,
    max_duration_micros := max m.max_duration_micros duration_micros }

end EventMetrics

/-- The shared metrics map (`HashMap<String, EventMetrics>`), modelled as an
association list keyed by event name. -/
def MetricsMap : Type := List (String × EventMetrics)

/-- `entry(name).or_insert_with(EventMetrics::new)` followed by
`record(duration, success)`: update the aggregate stored under `name`,
inserting a fresh one if absent. -/
def MetricsMap.recordIn (m : MetricsMap) (name : String) (duration : Nat)
    (success : Bool) : MetricsMap :=
  match m with
  | [] => [(name, (EventMetrics.new name).record duration success)]
  | (k, v) :: rest =>
      if k = name then (k, v.record duration success) :: rest
      else (k, v) :: MetricsMap.recordIn rest name duration success

/-- Output of `MetricsMiddleware::execute`: outcome, final context and final
metrics map. -/
structure MetricsOut (Ctx : Type) where
  result : EventResult Unit
  ctx : Ctx
  metrics : MetricsMap

/-- The `fail_on_lock_error` value set by `MetricsMiddleware::new`
(the default configuration). -/
def MetricsMiddleware.new_fail_on_lock_error : Bool := true

/-- Embeds `MetricsMiddleware::execute`: invoke downstream once (recording
start time and duration around it; the measured `duration` is a model
parameter), then try to record under the metrics lock. Lock acquisition is
the environment parameter `lockOk` (`self.metrics.lock()` succeeds or is
poisoned). If recording failed and `fail_on_lock_error` is set, return
`MiddlewareFailure`; otherwise return the downstream outcome. -/
def MetricsMiddleware.execute {Ctx : Type} (fail_on_lock_error lockOk : Bool)
    (duration : Nat) (m : MetricsMap) (e : Event Ctx) (ctx : Ctx)
    (next : Ctx → EventResult Unit × Ctx) : MetricsOut Ctx :=
  let r := next ctx
  if lockOk then
    ⟨r.1, r.2, MetricsMap.recordIn m e.name duration r.1.is_success⟩
  else if fail_on_lock_error then
    ⟨EventResult.MiddlewareFailure
        ("Metrics infrastructure failure: could not record metrics for "
          ++ e.name), r.2, m⟩
  else
    ⟨r.1, r.2, m⟩

/-! ## Helper lemmas about the chain loop -/

lemma EventResult.is_failure_eq_false_of_is_success {T : Type}
    {r : EventResult T} (h : r.is_success = true) : r.is_failure = false := by
  cases r <;> simp_all [EventResult.is_success, EventResult.is_failure]

lemma pipelineOutcomes_cons {Ctx : Type} (mws : List (Middleware Ctx))
    (e : Event Ctx) (rest : List (Event Ctx)) (ctx : Ctx) :
    pipelineOutcomes mws (e :: rest) ctx
      = (execute_with_middleware mws e ctx).1
        :: pipelineOutcomes mws rest (execute_with_middleware mws e ctx).2 := by
  simp [pipelineOutcomes]

lemma pipelineOutcomes_length {Ctx : Type} (mws : List (Middleware Ctx)) :
    ∀ (events : List (Event Ctx)) (ctx : Ctx),
      (pipelineOutcomes mws events ctx).length = events.length
  | [], _ => rfl
  | _ :: rest, ctx => by
      rw [pipelineOutcomes_cons]
      simp [pipelineOutcomes_length mws rest]

lemma executeFrom_strict_stops {Ctx : Type} (mws : List (Middleware Ctx))
    (events : List (Event Ctx)) :
    ∀ (ctx : Ctx) (k : Nat) (fs : List EventFailure) (c : Nat)
      (hk : k < events.length),
      (∀ j, j < k →
        ((pipelineOutcomes mws events ctx).getD j
          (EventResult.Success ())).is_success = true) →
      ((pipelineOutcomes mws events ctx).getD k
          (EventResult.Success ())).is_failure = true →
      (executeFrom FaultToleranceMode.Strict mws events ctx fs c).result
          = ChainResult.mkFailure (fs ++
              [failureRecordOf (events.get ⟨k, hk⟩)
                ((pipelineOutcomes mws events ctx).getD k
                  (EventResult.Success ()))])
        ∧ (executeFrom FaultToleranceMode.Strict mws events ctx fs c).invoked
            = c + (k + 1) := by
  induction events with
  | nil =>
      intro ctx k fs c hk
      simp at hk
  | cons e rest ih =>
      intro ctx k fs c hk hprev hfail
      rw [pipelineOutcomes_cons] at hprev hfail ⊢
      cases k with
      | zero =>
          rw [List.getD_cons_zero] at hfail
          simp only [executeFrom, hfail, if_true]
          simp [List.getD_cons_zero]
      | succ j =>
          have hsucc : (execute_with_middleware mws e ctx).1.is_success = true := by
            have := hprev 0 (Nat.succ_pos j)
            rwa [List.getD_cons_zero] at this
          have hnf := EventResult.is_failure_eq_false_of_is_success hsucc
          have hk' : j < rest.length := by
            simpa [Nat.succ_lt_succ_iff] using hk
          have hprev' : ∀ i, i < j →
              ((pipelineOutcomes mws rest
                  (execute_with_middleware mws e ctx).2).getD i
                (EventResult.Success ())).is_success = true := by
            intro i hi
            have := hprev (i + 1) (Nat.succ_lt_succ hi)
            rwa [List.getD_cons_succ] at this
          have hfail' :
              ((pipelineOutcomes mws rest
                  (execute_with_middleware mws e ctx).2).getD j
                (EventResult.Success ())).is_failure = true := by
            rwa [List.getD_cons_succ] at hfail
          have hmain := ih (execute_with_middleware mws e ctx).2 j fs (c + 1)
            hk' hprev' hfail'
          simp only [executeFrom, hnf, Bool.false_eq_true, if_false]
          refine ⟨?_, ?_⟩
          · rw [hmain.1]
            simp [List.getD_cons_succ]
          · rw [hmain.2]
            omega

/-- The failure records a policy-free full pass over `events` would append:
one record per failing pipeline outcome, in order. -/
def failureRecords {Ctx : Type} (mws : List (Middleware Ctx)) :
    List (Event Ctx) → Ctx → List EventFailure
  | [], _ => []
  | e :: rest, ctx =>
      let r := execute_with_middleware mws e ctx
      (if r.1.is_failure then [failureRecordOf e r.1] else [])
        ++ failureRecords mws rest r.2

lemma failureRecords_cons {Ctx : Type} (mws : List (Middleware Ctx))
    (e : Event Ctx) (rest : List (Event Ctx)) (ctx : Ctx) :
    failureRecords mws (e :: rest) ctx
      = (if (execute_with_middleware mws e ctx).1.is_failure then
          [failureRecordOf e (execute_with_middleware mws e ctx).1] else [])
        ++ failureRecords mws rest (execute_with_middleware mws e ctx).2 := by
  simp [failureRecords]

lemma failureRecords_eq_nil_iff {Ctx : Type} (mws : List (Middleware Ctx)) :
    ∀ (events : List (Event Ctx)) (ctx : Ctx),
      failureRecords mws events ctx = []
        ↔ ∀ r ∈ pipelineOutcomes mws events ctx, r.is_failure = false
  | [], ctx => by simp [failureRecords, pipelineOutcomes]
  | e :: rest, ctx => by
      rw [failureRecords_cons, pipelineOutcomes_cons]
      constructor
      · intro h r hr
        rcases List.append_eq_nil.mp h with ⟨h1, h2⟩
        rcases List.mem_cons.mp hr with hr0 | hrrest
        · subst hr0
          by_contra hfb
          simp only [Bool.not_eq_false] at hfb
          simp [hfb] at h1
        · exact (failureRecords_eq_nil_iff mws rest _).mp h2 r hrrest
      · intro h
        have h0 := h _ (List.mem_cons_self _ _)
        rw [h0]
        simp only [Bool.false_eq_true, if_false, List.nil_append]
        exact (failureRecords_eq_nil_iff mws rest _).mpr
          (fun r hr => h r (List.mem_cons_of_mem _ hr))

lemma executeFrom_lenient {Ctx : Type} (mws : List (Middleware Ctx))
    (events : List (Event Ctx)) :
    ∀ (ctx : Ctx) (fs : List EventFailure) (c : Nat),
      (executeFrom FaultToleranceMode.Lenient mws events ctx fs c).result
          = (if (fs ++ failureRecords mws events ctx).isEmpty then
              ChainResult.mkSuccess
            else ChainResult.mkPartialSuccess (fs ++ failureRecords mws events ctx))
        ∧ (executeFrom FaultToleranceMode.Lenient mws events ctx fs c).invoked
            = c + events.length := by
  induction events with
  | nil =>
      intro ctx fs c
      simp [executeFrom, failureRecords]
  | cons e rest ih =>
      intro ctx fs c
      rw [failureRecords_cons]
      by_cases hf : (execute_with_middleware mws e ctx).1.is_failure = true
      · simp only [executeFrom, hf, if_true]
        have hmain := ih (execute_with_middleware mws e ctx).2
          (fs ++ [failureRecordOf e (execute_with_middleware mws e ctx).1]) (c + 1)
        refine ⟨?_, ?_⟩
        · rw [hmain.1]
          simp [List.append_assoc]
        · rw [hmain.2]
          simp
          omega
      · simp only [Bool.not_eq_true] at hf
        simp only [executeFrom, hf, Bool.false_eq_true, if_false,
          List.nil_append]
        have hmain := ih (execute_with_middleware mws e ctx).2 fs (c + 1)
        refine ⟨hmain.1, ?_⟩
        rw [hmain.2]
        simp
        omega

lemma EventResult.is_failure_of_is_middleware_failure {T : Type}
    {r : EventResult T} (h : r.is_middleware_failure = true) :
    r.is_failure = true := by
  cases r <;> simp_all [EventResult.is_middleware_failure, EventResult.is_failure]

lemma EventResult.of_is_event_failure {T : Type}
    {r : EventResult T} (h : r.is_event_failure = true) :
    r.is_failure = true ∧ r.is_middleware_failure = false := by
  cases r <;> simp_all [EventResult.is_event_failure, EventResult.is_failure,
    EventResult.is_middleware_failure]

lemma executeFrom_invoked_ge {Ctx : Type} (mode : FaultToleranceMode)
    (mws : List (Middleware Ctx)) :
    ∀ (events : List (Event Ctx)) (ctx : Ctx) (fs : List EventFailure)
      (c : Nat), c ≤ (executeFrom mode mws events ctx fs c).invoked
  | [], ctx, fs, c => by simp [executeFrom]
  | e :: rest, ctx, fs, c => by
      have hrec := fun ctx' fs' =>
        executeFrom_invoked_ge mode mws rest ctx' fs' (c + 1)
      simp only [executeFrom]
      split
      · split
        · simp
        · exact Nat.le_of_succ_le (hrec _ _)
        · split
          · simp
          · exact Nat.le_of_succ_le (hrec _ _)
      · exact Nat.le_of_succ_le (hrec _ _)

lemma executeFrom_invoked_ge_one {Ctx : Type} (mode : FaultToleranceMode)
    (mws : List (Middleware Ctx)) (e : Event Ctx) (rest : List (Event Ctx))
    (ctx : Ctx) (fs : List EventFailure) (c : Nat) :
    c + 1 ≤ (executeFrom mode mws (e :: rest) ctx fs c).invoked := by
  have hrec := fun ctx' fs' =>
    executeFrom_invoked_ge mode mws rest ctx' fs' (c + 1)
  simp only [executeFrom]
  split
  · split
    · simp
    · exact hrec _ _
    · split
      · simp
      · exact hrec _ _
  · exact hrec _ _

lemma executeFrom_besteffort_no_mw {Ctx : Type} (mws : List (Middleware Ctx))
    (events : List (Event Ctx)) :
    ∀ (ctx : Ctx) (fs : List EventFailure) (c : Nat),
      (∀ r ∈ pipelineOutcomes mws events ctx, r.is_middleware_failure = false) →
      (executeFrom FaultToleranceMode.BestEffort mws events ctx fs c).result
          = (if (fs ++ failureRecords mws events ctx).isEmpty then
              ChainResult.mkSuccess
            else ChainResult.mkPartialSuccess (fs ++ failureRecords mws events ctx))
        ∧ (executeFrom FaultToleranceMode.BestEffort mws events ctx fs c).invoked
            = c + events.length := by
  induction events with
  | nil =>
      intro ctx fs c _
      simp [executeFrom, failureRecords]
  | cons e rest ih =>
      intro ctx fs c hnomw
      rw [pipelineOutcomes_cons] at hnomw
      have hmw0 : (execute_with_middleware mws e ctx).1.is_middleware_failure
          = false := hnomw _ (List.mem_cons_self _ _)
      have hnomw' : ∀ r ∈ pipelineOutcomes mws rest
          (execute_with_middleware mws e ctx).2,
          r.is_middleware_failure = false :=
        fun r hr => hnomw r (List.mem_cons_of_mem _ hr)
      rw [failureRecords_cons]
      by_cases hf : (execute_with_middleware mws e ctx).1.is_failure = true
      · simp only [executeFrom, hf, if_true, hmw0, Bool.false_eq_true, if_false]
        have hmain := ih (execute_with_middleware mws e ctx).2
          (fs ++ [failureRecordOf e (execute_with_middleware mws e ctx).1])
          (c + 1) hnomw'
        refine ⟨?_, ?_⟩
        · rw [hmain.1]
          simp [List.append_assoc]
        · rw [hmain.2]
          simp
          omega
      · simp only [Bool.not_eq_true] at hf
        simp only [executeFrom, hf, Bool.false_eq_true, if_false,
          List.nil_append]
        have hmain := ih (execute_with_middleware mws e ctx).2 fs (c + 1) hnomw'
        refine ⟨hmain.1, ?_⟩
        rw [hmain.2]
        simp
        omega

lemma executeFrom_besteffort_first_mw {Ctx : Type}
    (mws : List (Middleware Ctx)) (events : List (Event Ctx)) :
    ∀ (ctx : Ctx) (k : Nat) (fs : List EventFailure) (c : Nat)
      (hk : k < events.length),
      (∀ j, j < k →
        ((pipelineOutcomes mws events ctx).getD j
          (EventResult.Success ())).is_middleware_failure = false) →
      ((pipelineOutcomes mws events ctx).getD k
          (EventResult.Success ())).is_middleware_failure = true →
      ∃ pre,
        (executeFrom FaultToleranceMode.BestEffort mws events ctx fs c).result
            = ChainResult.mkFailure (pre ++
                [failureRecordOf (events.get ⟨k, hk⟩)
                  ((pipelineOutcomes mws events ctx).getD k
                    (EventResult.Success ()))])
          ∧ (executeFrom FaultToleranceMode.BestEffort mws events ctx fs c).invoked
              = c + (k + 1) := by
  induction events with
  | nil =>
      intro ctx k fs c hk
      simp at hk
  | cons e rest ih =>
      intro ctx k fs c hk hprev hmw
      rw [pipelineOutcomes_cons] at hprev hmw ⊢
      cases k with
      | zero =>
          rw [List.getD_cons_zero] at hmw
          have hf := EventResult.is_failure_of_is_middleware_failure hmw
          refine ⟨fs, ?_⟩
          simp only [executeFrom, hf, if_true, hmw]
          simp [List.getD_cons_zero]
      | succ j =>
          have hmw0 : (execute_with_middleware mws e ctx).1.is_middleware_failure
              = false := by
            have := hprev 0 (Nat.succ_pos j)
            rwa [List.getD_cons_zero] at this
          have hk' : j < rest.length := by
            simpa [Nat.succ_lt_succ_iff] using hk
          have hprev' : ∀ i, i < j →
              ((pipelineOutcomes mws rest
                  (execute_with_middleware mws e ctx).2).getD i
                (EventResult.Success ())).is_middleware_failure = false := by
            intro i hi
            have := hprev (i + 1) (Nat.succ_lt_succ hi)
            rwa [List.getD_cons_succ] at this
          have hmw' :
              ((pipelineOutcomes mws rest
                  (execute_with_middleware mws e ctx).2).getD j
                (EventResult.Success ())).is_middleware_failure = true := by
            rwa [List.getD_cons_succ] at hmw
          by_cases hf : (execute_with_middleware mws e ctx).1.is_failure = true
          · obtain ⟨pre, hres, hinv⟩ := ih (execute_with_middleware mws e ctx).2
              j (fs ++ [failureRecordOf e (execute_with_middleware mws e ctx).1])
              (c + 1) hk' hprev' hmw'
            refine ⟨pre, ?_, ?_⟩
            · simp only [executeFrom, hf, if_true, hmw0, Bool.false_eq_true,
                if_false]
              rw [hres]
              simp [List.getD_cons_succ]
            · simp only [executeFrom, hf, if_true, hmw0, Bool.false_eq_true,
                if_false]
              rw [hinv]
              omega
          · simp only [Bool.not_eq_true] at hf
            obtain ⟨pre, hres, hinv⟩ := ih (execute_with_middleware mws e ctx).2
              j fs (c + 1) hk' hprev' hmw'
            refine ⟨pre, ?_, ?_⟩
            · simp only [executeFrom, hf, Bool.false_eq_true, if_false]
              rw [hres]
              simp [List.getD_cons_succ]
            · simp only [executeFrom, hf, Bool.false_eq_true, if_false]
              rw [hinv]
              omega

lemma executeFrom_besteffort_continues {Ctx : Type}
    (mws : List (Middleware Ctx)) (events : List (Event Ctx)) :
    ∀ (ctx : Ctx) (k : Nat) (fs : List EventFailure) (c : Nat),
      k + 1 < events.length →
      (∀ j, j ≤ k →
        ((pipelineOutcomes mws events ctx).getD j
          (EventResult.Success ())).is_middleware_failure = false) →
      c + (k + 2) ≤
        (executeFrom FaultToleranceMode.BestEffort mws events ctx fs c).invoked := by
  induction events with
  | nil =>
      intro ctx k fs c hk
      simp at hk
  | cons e rest ih =>
      intro ctx k fs c hk hnomw
      have hmw0 : (execute_with_middleware mws e ctx).1.is_middleware_failure
          = false := by
        have := hnomw 0 (Nat.zero_le k)
        rwa [pipelineOutcomes_cons, List.getD_cons_zero] at this
      cases k with
      | zero =>
          have hrest : rest ≠ [] := by
            intro hnil
            rw [hnil] at hk
            simp at hk
          obtain ⟨e', rest', hsplit⟩ := List.exists_cons_of_ne_nil hrest
          by_cases hf : (execute_with_middleware mws e ctx).1.is_failure = true
          · simp only [executeFrom, hf, if_true, hmw0, Bool.false_eq_true,
              if_false]
            subst hsplit
            exact executeFrom_invoked_ge_one _ mws e' rest' _ _ (c + 1)
          · simp only [Bool.not_eq_true] at hf
            simp only [executeFrom, hf, Bool.false_eq_true, if_false]
            subst hsplit
            exact executeFrom_invoked_ge_one _ mws e' rest' _ _ (c + 1)
      | succ j =>
          have hk' : j + 1 < rest.length := by
            simpa [Nat.succ_lt_succ_iff] using hk
          have hnomw' : ∀ i, i ≤ j →
              ((pipelineOutcomes mws rest
                  (execute_with_middleware mws e ctx).2).getD i
                (EventResult.Success ())).is_middleware_failure = false := by
            intro i hi
            have := hnomw (i + 1) (Nat.succ_le_succ hi)
            rwa [pipelineOutcomes_cons, List.getD_cons_succ] at this
          by_cases hf : (execute_with_middleware mws e ctx).1.is_failure = true
          · simp only [executeFrom, hf, if_true, hmw0, Bool.false_eq_true,
              if_false]
            have := ih (execute_with_middleware mws e ctx).2 j
              (fs ++ [failureRecordOf e (execute_with_middleware mws e ctx).1])
              (c + 1) hk' hnomw'
            omega
          · simp only [Bool.not_eq_true] at hf
            simp only [executeFrom, hf, Bool.false_eq_true, if_false]
            have := ih (execute_with_middleware mws e ctx).2 j fs (c + 1) hk' hnomw'
            omega

lemma failureRecordOf_event_name {Ctx : Type} (e : Event Ctx)
    (r : EventResult Unit) : (failureRecordOf e r).event_name = e.name := by
  simp only [failureRecordOf]
  split <;> rfl

lemma failureRecordOf_is_mw {Ctx : Type} (e : Event Ctx)
    {r : EventResult Unit} (h : r.is_middleware_failure = true) :
    (failureRecordOf e r).is_middleware_failure = true := by
  cases r <;> simp_all [EventResult.is_middleware_failure, failureRecordOf,
    EventResult.get_failure_info, EventFailure.middleware_failure]

/-! ## Claim theorems: fault-tolerance modes of the chain -/

/-- C1: in a Strict-mode chain, if every event pipeline before index `k`
returned Success and the pipeline of event `k` returned a failure of either
kind, then `execute` returns status `Failed` with `success = false` and a
failures list holding exactly the one record for event `k` (bearing that
event's name), and no pipeline after index `k` is invoked (exactly `k + 1`
pipelines run). -/
theorem strict_first_failure_stops_chain {Ctx : Type}
    (chain : EventChain Ctx) (ctx : Ctx) (k : Nat)
    (hmode : chain.fault_tolerance = FaultToleranceMode.Strict)
    (hk : k < chain.events.length)
    (hprev : ∀ j, j < k →
      ((pipelineOutcomes chain.middlewares chain.events ctx).getD j
        (EventResult.Success ())).is_success = true)
    (hfail : ((pipelineOutcomes chain.middlewares chain.events ctx).getD k
        (EventResult.Success ())).is_failure = true) :
    (chain.execute ctx).result.status = ChainStatus.Failed
    ∧ (chain.execute ctx).result.success = false
    ∧ (chain.execute ctx).result.failures
        = [failureRecordOf (chain.events.get ⟨k, hk⟩)
            ((pipelineOutcomes chain.middlewares chain.events ctx).getD k
              (EventResult.Success ()))]
    ∧ (failureRecordOf (chain.events.get ⟨k, hk⟩)
        ((pipelineOutcomes chain.middlewares chain.events ctx).getD k
          (EventResult.Success ()))).event_name
        = (chain.events.get ⟨k, hk⟩).name
    ∧ (chain.execute ctx).invoked = k + 1 := by
  have h := executeFrom_strict_stops chain.middlewares chain.events ctx k [] 0
    hk hprev hfail
  rw [EventChain.execute, hmode]
  refine ⟨?_, ?_, ?_, failureRecordOf_event_name _ _, ?_⟩
  · rw [h.1]; rfl
  · rw [h.1]; rfl
  · rw [h.1]; simp [ChainResult.mkFailure]
  · rw [h.2]; omega

/-- C2: a Lenient-mode chain invokes every registered event's pipeline
exactly once (all `events.length` of them), always returns `success = true`,
and its status is `CompletedWithWarnings` exactly when some pipeline outcome
was a failure, `Completed` exactly when none was. -/
theorem lenient_runs_all_events {Ctx : Type} (chain : EventChain Ctx)
    (ctx : Ctx)
    (hmode : chain.fault_tolerance = FaultToleranceMode.Lenient) :
    (chain.execute ctx).invoked = chain.events.length
    ∧ (chain.execute ctx).result.success = true
    ∧ ((chain.execute ctx).result.status = ChainStatus.CompletedWithWarnings
        ↔ ¬ ∀ r ∈ pipelineOutcomes chain.middlewares chain.events ctx,
            r.is_failure = false)
    ∧ ((chain.execute ctx).result.status = ChainStatus.Completed
        ↔ ∀ r ∈ pipelineOutcomes chain.middlewares chain.events ctx,
            r.is_failure = false) := by
  have h := executeFrom_lenient chain.middlewares chain.events ctx [] 0
  rw [EventChain.execute, hmode]
  have hnil := failureRecords_eq_nil_iff chain.middlewares chain.events ctx
  by_cases hempty : failureRecords chain.middlewares chain.events ctx = []
  · have hres : (executeFrom FaultToleranceMode.Lenient chain.middlewares
        chain.events ctx [] 0).result = ChainResult.mkSuccess := by
      rw [h.1]
      simp [hempty]
    refine ⟨by rw [h.2]; omega, by rw [hres]; rfl, ?_, ?_⟩
    · constructor
      · intro hc
        rw [hres] at hc
        exact absurd hc (by decide)
      · intro hno
        exact absurd (hnil.mp hempty) hno
    · constructor
      · intro _
        exact hnil.mp hempty
      · intro _
        rw [hres]
        rfl
  · have hres : (executeFrom FaultToleranceMode.Lenient chain.middlewares
        chain.events ctx [] 0).result = ChainResult.mkPartialSuccess
          (failureRecords chain.middlewares chain.events ctx) := by
      rw [h.1, List.nil_append,
        if_neg (by simpa [List.isEmpty_iff] using hempty)]
    refine ⟨by rw [h.2]; omega, by rw [hres]; rfl, ?_, ?_⟩
    · constructor
      · intro _ hall
        exact hempty (hnil.mpr hall)
      · intro _
        rw [hres]
        rfl
    · constructor
      · intro hc
        rw [hres] at hc
        simp [ChainResult.mkPartialSuccess] at hc
      · intro hall
        exact absurd (hnil.mpr hall) hempty

/-- C3: in a BestEffort-mode chain, (i) a business failure at index `k`
never stops execution — if no pipeline up to `k` returned an infrastructure
failure and an event is registered after `k`, at least `k + 2` pipelines are
invoked; and (ii) if the pipeline of event `k` is the first to return an
infrastructure failure, execution stops at once with status `Failed`,
`success = false`, exactly `k + 1` pipelines invoked, and the failures list
ends with that event's infrastructure record. -/
theorem besteffort_business_continues_infra_stops {Ctx : Type}
    (chain : EventChain Ctx) (ctx : Ctx) (k : Nat)
    (hmode : chain.fault_tolerance = FaultToleranceMode.BestEffort) :
    (((pipelineOutcomes chain.middlewares chain.events ctx).getD k
          (EventResult.Success ())).is_event_failure = true →
      (∀ j, j < k →
        ((pipelineOutcomes chain.middlewares chain.events ctx).getD j
          (EventResult.Success ())).is_middleware_failure = false) →
      k + 1 < chain.events.length →
      k + 2 ≤ (chain.execute ctx).invoked)
    ∧ (∀ hk : k < chain.events.length,
        (∀ j, j < k →
          ((pipelineOutcomes chain.middlewares chain.events ctx).getD j
            (EventResult.Success ())).is_middleware_failure = false) →
        ((pipelineOutcomes chain.middlewares chain.events ctx).getD k
            (EventResult.Success ())).is_middleware_failure = true →
        (chain.execute ctx).result.status = ChainStatus.Failed
        ∧ (chain.execute ctx).result.success = false
        ∧ (chain.execute ctx).invoked = k + 1
        ∧ (chain.execute ctx).result.failures.getLast?
            = some (failureRecordOf (chain.events.get ⟨k, hk⟩)
                ((pipelineOutcomes chain.middlewares chain.events ctx).getD k
                  (EventResult.Success ())))
        ∧ (failureRecordOf (chain.events.get ⟨k, hk⟩)
            ((pipelineOutcomes chain.middlewares chain.events ctx).getD k
              (EventResult.Success ()))).is_middleware_failure = true) := by
  rw [EventChain.execute, hmode]
  constructor
  · intro hbiz hprev hklen
    have hnomw : ∀ j, j ≤ k →
        ((pipelineOutcomes chain.middlewares chain.events ctx).getD j
          (EventResult.Success ())).is_middleware_failure = false := by
      intro j hj
      rcases Nat.lt_or_ge j k with hlt | hge
      · exact hprev j hlt
      · have : j = k := Nat.le_antisymm hj hge
        subst this
        exact (EventResult.of_is_event_failure hbiz).2
    have := executeFrom_besteffort_continues chain.middlewares chain.events
      ctx k [] 0 hklen hnomw
    omega
  · intro hk hprev hmw
    obtain ⟨pre, hres, hinv⟩ := executeFrom_besteffort_first_mw
      chain.middlewares chain.events ctx k [] 0 hk hprev hmw
    refine ⟨?_, ?_, ?_, ?_, failureRecordOf_is_mw _ hmw⟩
    · rw [hres]; rfl
    · rw [hres]; rfl
    · rw [hinv]; omega
    · rw [hres]
      simp [ChainResult.mkFailure]

/-! ## Witness chains (concrete, used only to instantiate the theorems) -/

/-- A concrete always-succeeding event over the trivial context. -/
def wOkEvent : Event Unit := ⟨"ok", fun c => (EventResult.Success (), c)⟩

/-- A concrete event failing with a business failure. -/
def wBizEvent : Event Unit := ⟨"bad", fun c => (EventResult.Failure "boom", c)⟩

/-- A concrete event failing with an infrastructure failure. -/
def wInfraEvent : Event Unit :=
  ⟨"infra", fun c => (EventResult.MiddlewareFailure "lock poisoned", c)⟩

/-- Strict chain: ok, then a business failure, then an event that must not
run. -/
def wChainStrict : EventChain Unit :=
  ⟨[wOkEvent, wBizEvent, wOkEvent], [], FaultToleranceMode.Strict⟩

/-- Lenient chain with one failing event. -/
def wChainLenient : EventChain Unit :=
  ⟨[wOkEvent, wBizEvent, wOkEvent], [], FaultToleranceMode.Lenient⟩

/-- BestEffort chain: business failure first, then ok, then an
infrastructure failure, then an event that must not run. -/
def wChainBestEffort : EventChain Unit :=
  ⟨[wBizEvent, wOkEvent, wInfraEvent, wOkEvent], [],
    FaultToleranceMode.BestEffort⟩

/-- Witness for C1: on the concrete Strict chain the failure at index 1 stops
the chain with 2 pipelines invoked. -/
theorem strict_first_failure_stops_chain_witness :
    (wChainStrict.execute ()).result.status = ChainStatus.Failed
    ∧ (wChainStrict.execute ()).result.success = false
    ∧ (wChainStrict.execute ()).invoked = 2 := by
  have h := strict_first_failure_stops_chain wChainStrict () 1 rfl
    (by decide) (by decide) (by decide)
  exact ⟨h.1, h.2.1, h.2.2.2.2⟩

/-- Witness for C2: the concrete Lenient chain runs all three events, reports
success, and ends `CompletedWithWarnings`. -/
theorem lenient_runs_all_events_witness :
    (wChainLenient.execute ()).invoked = 3
    ∧ (wChainLenient.execute ()).result.success = true
    ∧ (wChainLenient.execute ()).result.status
        = ChainStatus.CompletedWithWarnings := by
  have h := lenient_runs_all_events wChainLenient () rfl
  refine ⟨h.1, h.2.1, h.2.2.1.mpr ?_⟩
  decide

/-- Witness for C3: on the concrete BestEffort chain the business failure at
index 0 does not stop the chain, and the infrastructure failure at index 2
stops it with 3 pipelines invoked. -/
theorem besteffort_witness :
    2 ≤ (wChainBestEffort.execute ()).invoked
    ∧ (wChainBestEffort.execute ()).result.status = ChainStatus.Failed
    ∧ (wChainBestEffort.execute ()).result.success = false
    ∧ (wChainBestEffort.execute ()).invoked = 3 := by
  have h1 := (besteffort_business_continues_infra_stops wChainBestEffort () 0
    rfl).1 (by decide) (by omega) (by decide)
  have h2 := (besteffort_business_continues_infra_stops wChainBestEffort () 2
    rfl).2 (by decide) (by decide) (by decide)
  exact ⟨h1, h2.1, h2.2.1, h2.2.2.1⟩

/-! ## Claim theorem: middleware nesting order -/

/-- C4: with `N` registered middleware, recursion index `i < N` runs the
middleware registered at position `N - 1 - i` (so the last-registered one is
outermost: index 0 runs `getLast`), the continuation it receives recurses at
`i + 1`, and the innermost continuation (`i ≥ N`, or an empty middleware
list) calls the event's own `execute` directly. -/
theorem middleware_nesting_order {Ctx : Type} (mws : List (Middleware Ctx))
    (e : Event Ctx) (ctx : Ctx) :
    (∀ i, ∀ h : i < mws.length,
      execute_middleware_recursive mws e i ctx
        = (mws.get ⟨mws.length - 1 - i, by omega⟩).run e ctx
            (fun c => execute_middleware_recursive mws e (i + 1) c))
    ∧ (∀ i, mws.length ≤ i →
        execute_middleware_recursive mws e i ctx = e.run ctx)
    ∧ execute_with_middleware ([] : List (Middleware Ctx)) e ctx = e.run ctx
    ∧ (∀ h : mws ≠ [],
        execute_with_middleware mws e ctx
          = (mws.getLast h).run e ctx
              (fun c => execute_middleware_recursive mws e 1 c)) := by
  have hstep : ∀ i, ∀ h : i < mws.length,
      execute_middleware_recursive mws e i ctx
        = (mws.get ⟨mws.length - 1 - i, by omega⟩).run e ctx
            (fun c => execute_middleware_recursive mws e (i + 1) c) := by
    intro i h
    rw [execute_middleware_recursive]
    rw [dif_neg (by omega)]
  refine ⟨hstep, ?_, ?_, ?_⟩
  · intro i h
    rw [execute_middleware_recursive]
    rw [dif_pos (by omega)]
  · rfl
  · intro h
    have hlen : 0 < mws.length := List.length_pos.mpr h
    rw [execute_with_middleware, if_neg (by simp [List.isEmpty_iff, h])]
    rw [hstep 0 hlen]
    congr 1
    rw [List.getLast_eq_getElem]
    simp

/-- A concrete context-tagging middleware used by witnesses. -/
def wTagMw (tag : String) : Middleware (List String) :=
  ⟨fun _ ctx next => next (ctx ++ [tag])⟩

/-- A concrete context-tagging event used by witnesses. -/
def wListEvent : Event (List String) :=
  ⟨"ev", fun c => (EventResult.Success (), c ++ ["ev"])⟩

/-- Witness for C4: with two registered middleware, index 0 runs the
middleware at position 1 (the last registered) and index 2 falls through to
the event. -/
theorem middleware_nesting_order_witness :
    execute_middleware_recursive [wTagMw "a", wTagMw "b"] wListEvent 0 []
      = (([wTagMw "a", wTagMw "b"] : List (Middleware (List String))).get
          ⟨1, by simp⟩).run wListEvent []
          (fun c => execute_middleware_recursive [wTagMw "a", wTagMw "b"]
            wListEvent 1 c)
    ∧ execute_middleware_recursive [wTagMw "a", wTagMw "b"] wListEvent 2 []
        = wListEvent.run [] := by
  constructor
  · exact (middleware_nesting_order [wTagMw "a", wTagMw "b"] wListEvent []).1
      0 (by decide)
  · exact (middleware_nesting_order [wTagMw "a", wTagMw "b"] wListEvent []).2.1
      2 (by decide)

/-! ## Helper lemmas about the retry loop -/

lemma retryLoop_of_success {Ctx : Type} (backoff : BackoffStrategy)
    (next : Ctx → EventResult Unit × Ctx) (max_retries attempts : Nat)
    (ctx : Ctx) (sleeps : List Nat) {u : Unit}
    (h : (next ctx).1 = EventResult.Success u) :
    retryLoop backoff next max_retries attempts ctx sleeps
      = ⟨EventResult.Success u, (next ctx).2, attempts + 1, sleeps⟩ := by
  rw [retryLoop, h]

lemma retryLoop_of_mw_failure {Ctx : Type} (backoff : BackoffStrategy)
    (next : Ctx → EventResult Unit × Ctx) (max_retries attempts : Nat)
    (ctx : Ctx) (sleeps : List Nat) {m : String}
    (h : (next ctx).1 = EventResult.MiddlewareFailure m) :
    retryLoop backoff next max_retries attempts ctx sleeps
      = ⟨EventResult.MiddlewareFailure m, (next ctx).2, attempts + 1, sleeps⟩ := by
  rw [retryLoop, h]

lemma iterNext_succ {Ctx : Type} (next : Ctx → EventResult Unit × Ctx)
    (n : Nat) (c : Ctx) :
    iterNext next (n + 1) c = iterNext next n (next c).2 := rfl

lemma retryLoop_allfail {Ctx : Type} (backoff : BackoffStrategy)
    (next : Ctx → EventResult Unit × Ctx) (max_retries : Nat)
    (h : ∀ c, (next c).1.is_event_failure = true) :
    ∀ (fuel attempts : Nat) (ctx : Ctx) (sleeps : List Nat),
      fuel = max_retries - attempts →
      retryLoop backoff next max_retries attempts ctx sleeps
        = ⟨(next (iterNext next (max (attempts + 1) max_retries - attempts - 1)
              ctx)).1,
           iterNext next (max (attempts + 1) max_retries - attempts) ctx,
           max (attempts + 1) max_retries,
           sleeps ++ (List.range (max (attempts + 1) max_retries - attempts - 1)).map
             (fun i => calculate_delay backoff (attempts + 1 + i))⟩ := by
  intro fuel
  induction fuel with
  | zero =>
      intro attempts ctx sleeps hfuel
      obtain ⟨msg, hmsg⟩ : ∃ msg, (next ctx).1 = EventResult.Failure msg := by
        have := h ctx
        cases hc : (next ctx).1 <;> simp_all [EventResult.is_event_failure]
      have hstop : attempts + 1 ≥ max_retries := by omega
      rw [retryLoop, hmsg]
      simp only [hstop, if_true]
      have hmax : max (attempts + 1) max_retries = attempts + 1 := by omega
      rw [hmax]
      simp [iterNext, hmsg]
  | succ fuel ih =>
      intro attempts ctx sleeps hfuel
      obtain ⟨msg, hmsg⟩ : ∃ msg, (next ctx).1 = EventResult.Failure msg := by
        have := h ctx
        cases hc : (next ctx).1 <;> simp_all [EventResult.is_event_failure]
      by_cases hstop : attempts + 1 ≥ max_retries
      · rw [retryLoop, hmsg]
        simp only [hstop, if_true]
        have hmax : max (attempts + 1) max_retries = attempts + 1 := by omega
        rw [hmax]
        simp [iterNext, hmsg]
      · rw [retryLoop, hmsg]
        simp only [hstop, if_false]
        have hrec := ih (attempts + 1) (next ctx).2
          (sleeps ++ [calculate_delay backoff (attempts + 1)]) (by omega)
        rw [hrec]
        have hm1 : max (attempts + 1 + 1) max_retries = max_retries := by omega
        have hm2 : max (attempts + 1) max_retries = max_retries := by omega
        rw [hm1, hm2]
        have hn : max_retries - attempts - 1
            = (max_retries - (attempts + 1) - 1) + 1 := by omega
        have hiter1 :
            iterNext next (max_retries - (attempts + 1) - 1) (next ctx).2
              = iterNext next (max_retries - attempts - 1) ctx := by
          rw [hn, iterNext_succ]
        have hiter2 :
            iterNext next (max_retries - (attempts + 1)) (next ctx).2
              = iterNext next (max_retries - attempts) ctx := by
          have hs : max_retries - attempts
              = (max_retries - (attempts + 1)) + 1 := by omega
          rw [hs, iterNext_succ]
        rw [hiter1, hiter2]
        have hsl : sleeps ++ [calculate_delay backoff (attempts + 1)]
            ++ List.map (fun i => calculate_delay backoff (attempts + 1 + 1 + i))
              (List.range (max_retries - (attempts + 1) - 1))
          = sleeps ++ List.map
              (fun i => calculate_delay backoff (attempts + 1 + i))
              (List.range (max_retries - attempts - 1)) := by
          rw [hn, List.range_succ_eq_map]
          simp only [List.map_cons, List.map_map, List.append_assoc,
            List.singleton_append, Nat.add_zero, Function.comp]
          refine congrArg _ (congrArg _ ?_)
          refine List.map_congr_left ?_
          intro i _
          refine congrArg _ ?_
          omega
        rw [hsl]

lemma retry_execute_allfail {Ctx : Type} (backoff : BackoffStrategy)
    (next : Ctx → EventResult Unit × Ctx) (max_retries : Nat)
    (h : ∀ c, (next c).1.is_event_failure = true) (ctx : Ctx) :
    RetryMiddleware.execute max_retries backoff next ctx
      = ⟨(next (iterNext next (max 1 max_retries - 1) ctx)).1,
         iterNext next (max 1 max_retries) ctx,
         max 1 max_retries,
         (List.range (max 1 max_retries - 1)).map
           (fun i => calculate_delay backoff (i + 1))⟩ := by
  rw [RetryMiddleware.execute,
    retryLoop_allfail backoff next max_retries h (max_retries - 0) 0 ctx [] rfl]
  simp only [Nat.sub_zero, Nat.zero_add, List.nil_append]
  have hsl : List.map (fun i => calculate_delay backoff (1 + i))
      (List.range (max 1 max_retries - 1))
    = List.map (fun i => calculate_delay backoff (i + 1))
      (List.range (max 1 max_retries - 1)) := by
    refine List.map_congr_left ?_
    intro i _
    refine congrArg _ ?_
    omega
  rw [hsl]

/-! ## Claim theorems: retry middleware -/

/-- A concrete always-business-failing downstream continuation. -/
def wFailNext : Unit → EventResult Unit × Unit :=
  fun c => (EventResult.Failure "boom", c)

/-- C5 counterexample, two parts. (1) With `max_attempts = 0` and an
always-failing downstream, the downstream is invoked once — not the zero
times the claim's "until max_attempts total downstream invocations have
occurred" dictates. (2) With `Exponential{initial = 1, max = 2^40}` the u32
multiplier `2u32.pow(attempt - 1)` wraps modulo `2^32`, so the delay slept
after failed attempt 33 (reached e.g. with `max_attempts = 34`) is `0`, not
the `min(initial * 2^(attempt-1), max) = 2^32` the claim's formula
dictates. -/
theorem retry_claim_counterexample :
    ((RetryMiddleware.execute 0 BackoffStrategy.NoDelay wFailNext ()).attempts
        = 1
      ∧ (RetryMiddleware.execute 0 BackoffStrategy.NoDelay wFailNext
          ()).attempts ≠ 0)
    ∧ (calculate_delay (BackoffStrategy.Exponential 1 (2 ^ 40)) 33 = 0
      ∧ calculate_delay (BackoffStrategy.Exponential 1 (2 ^ 40)) 33
          ≠ min (1 * 2 ^ (33 - 1)) (2 ^ 40)
      ∧ (RetryMiddleware.execute 34 (BackoffStrategy.Exponential 1 (2 ^ 40))
          wFailNext ()).sleeps.getD 32 1 = 0) := by
  have h := retry_execute_allfail BackoffStrategy.NoDelay wFailNext 0
    (fun c => rfl) ()
  have h34 := retry_execute_allfail (BackoffStrategy.Exponential 1 (2 ^ 40))
    wFailNext 34 (fun c => rfl) ()
  refine ⟨⟨?_, ?_⟩, ?_, ?_, ?_⟩
  · rw [h]
    decide
  · rw [h]
    decide
  · decide
  · decide
  · rw [h34]
    decide

/-- C5 (amended twice: when every attempt fails, the total number of
downstream invocations is `max 1 max_attempts`, since even
`max_attempts = 0` performs one invocation; and the exponential multiplier
is the wrapping u32 `2u32.pow(a-1)`, i.e. `2^(a-1) % 2^32`): a downstream
Success is returned immediately (one invocation, no sleeps); a downstream
InfrastructureFailure is returned immediately without any retry; a
downstream business Failure is retried until `max 1 max_attempts` total
invocations occurred, the last Failure is returned unchanged, and the delay
slept after failed attempt number `a` is `calculate_delay backoff a` with
`None → 0`, `Fixed(d) → d`,
`Exponential → min (initial * (2^(a-1) % 2^32)) max`,
`Linear → initial + increment * (a-1)`. -/
theorem retry_policy_and_backoff {Ctx : Type} (max_retries : Nat)
    (backoff : BackoffStrategy) (next : Ctx → EventResult Unit × Ctx)
    (ctx : Ctx) :
    (∀ u, (next ctx).1 = EventResult.Success u →
      RetryMiddleware.execute max_retries backoff next ctx
        = ⟨EventResult.Success u, (next ctx).2, 1, []⟩)
    ∧ (∀ m, (next ctx).1 = EventResult.MiddlewareFailure m →
      RetryMiddleware.execute max_retries backoff next ctx
        = ⟨EventResult.MiddlewareFailure m, (next ctx).2, 1, []⟩)
    ∧ ((∀ c, (next c).1.is_event_failure = true) →
        (RetryMiddleware.execute max_retries backoff next ctx).attempts
            = max 1 max_retries
        ∧ (RetryMiddleware.execute max_retries backoff next ctx).result
            = (next (iterNext next (max 1 max_retries - 1) ctx)).1
        ∧ (RetryMiddleware.execute max_retries backoff next ctx).sleeps
            = (List.range (max 1 max_retries - 1)).map
                (fun i => calculate_delay backoff (i + 1)))
    ∧ (∀ a, calculate_delay BackoffStrategy.NoDelay a = 0)
    ∧ (∀ a d, calculate_delay (BackoffStrategy.Fixed d) a = d)
    ∧ (∀ a initial maxDelay,
        calculate_delay (BackoffStrategy.Exponential initial maxDelay) a
          = min (initial * (2 ^ (a - 1) % 2 ^ 32)) maxDelay)
    ∧ (∀ a initial increment,
        calculate_delay (BackoffStrategy.Linear initial increment) a
          = initial + increment * (a - 1)) := by
  refine ⟨?_, ?_, ?_, fun a => rfl, fun a d => rfl, fun a i m => rfl,
    fun a i inc => rfl⟩
  · intro u h
    rw [RetryMiddleware.execute]
    exact retryLoop_of_success backoff next max_retries 0 ctx [] h
  · intro m h
    rw [RetryMiddleware.execute]
    exact retryLoop_of_mw_failure backoff next max_retries 0 ctx [] h
  · intro h
    rw [retry_execute_allfail backoff next max_retries h ctx]
    exact ⟨rfl, rfl, rfl⟩

/-- Witness for C5: with 3 total attempts, fixed backoff 10 and an
always-failing downstream, 3 invocations occur with sleeps `[10, 10]`. -/
theorem retry_policy_and_backoff_witness :
    (RetryMiddleware.execute 3 (BackoffStrategy.Fixed 10) wFailNext
        ()).attempts = 3
    ∧ (RetryMiddleware.execute 3 (BackoffStrategy.Fixed 10) wFailNext
        ()).sleeps = [10, 10] := by
  have h := (retry_policy_and_backoff 3 (BackoffStrategy.Fixed 10) wFailNext
    ()).2.2.1 (fun c => rfl)
  refine ⟨?_, ?_⟩
  · rw [h.1]
    decide
  · rw [h.2.2]
    decide

/-- C9: with an always-failing downstream, `RetryMiddleware::execute`
performs `max 1 max_retries` downstream invocations — at least one even when
constructed with `max_retries = 0`, in which case the single invocation's
Failure is returned with no sleeps. -/
theorem retry_always_invokes_downstream {Ctx : Type} (max_retries : Nat)
    (backoff : BackoffStrategy) (next : Ctx → EventResult Unit × Ctx)
    (ctx : Ctx) (h : ∀ c, (next c).1.is_event_failure = true) :
    (RetryMiddleware.execute max_retries backoff next ctx).attempts
        = max 1 max_retries
    ∧ 1 ≤ (RetryMiddleware.execute max_retries backoff next ctx).attempts
    ∧ (max_retries = 0 →
        RetryMiddleware.execute max_retries backoff next ctx
          = ⟨(next ctx).1, (next ctx).2, 1, []⟩) := by
  have hc := retry_execute_allfail backoff next max_retries h ctx
  refine ⟨by rw [hc], ?_, ?_⟩
  · rw [hc]
    show 1 ≤ max 1 max_retries
    omega
  intro h0
  subst h0
  have hm : max 1 0 = 1 := by decide
  rw [hm] at hc
  rw [hc]
  rfl

/-- Witness for C9: `max_retries = 0` with the failing downstream still
invokes it once and returns the Failure. -/
theorem retry_always_invokes_downstream_witness :
    (RetryMiddleware.execute 0 BackoffStrategy.NoDelay wFailNext ()).attempts
        = max 1 0
    ∧ RetryMiddleware.execute 0 BackoffStrategy.NoDelay wFailNext ()
        = ⟨EventResult.Failure "boom", (), 1, []⟩ := by
  have h := retry_always_invokes_downstream 0 BackoffStrategy.NoDelay
    wFailNext () (fun c => rfl)
  exact ⟨h.1, h.2.2 rfl⟩

/-! ## Claim theorems: circuit breaker -/

/-- C6: the circuit breaker state machine satisfies: from Closed,
`record_failure` opens the circuit (recording `opened_at := now`) exactly
when the consecutive-failure count reaches `failure_threshold`, staying
Closed with the incremented count below it; any success in Closed stays
Closed with the failure counter reset to zero; a call arriving while Open
with `now - opened_at ≥ open_timeout` lazily moves to HalfOpen, does invoke
downstream, and records the outcome from the HalfOpen state; from HalfOpen,
`record_success` closes the circuit with counters reset exactly when
consecutive successes reach `success_threshold`; and any failure in HalfOpen
reopens immediately with `opened_at` refreshed. -/
theorem circuit_breaker_state_machine (cfg : CircuitBreakerConfig)
    (s : CircuitBreakerState) (now : Nat) :
    (s.state = CircuitState.Closed →
      ((CircuitBreakerMiddleware.record_failure cfg s now).state
          = CircuitState.Open ↔ cfg.failure_threshold ≤ s.failure_count + 1)
      ∧ ((CircuitBreakerMiddleware.record_failure cfg s now).state
            = CircuitState.Open →
          (CircuitBreakerMiddleware.record_failure cfg s now).opened_at
            = some now)
      ∧ (¬ cfg.failure_threshold ≤ s.failure_count + 1 →
          (CircuitBreakerMiddleware.record_failure cfg s now).state
              = CircuitState.Closed
          ∧ (CircuitBreakerMiddleware.record_failure cfg s now).failure_count
              = s.failure_count + 1))
    ∧ (s.state = CircuitState.Closed →
        (CircuitBreakerMiddleware.record_success cfg s).state
            = CircuitState.Closed
        ∧ (CircuitBreakerMiddleware.record_success cfg s).failure_count = 0)
    ∧ (∀ (Ctx : Type) (e : Event Ctx) (ctx : Ctx)
        (next : Ctx → EventResult Unit × Ctx) (t : Nat),
        s.state = CircuitState.Open → s.opened_at = some t →
        cfg.timeout ≤ now - t →
        (CircuitBreakerMiddleware.execute cfg s now e ctx next).invoked = true
        ∧ (CircuitBreakerMiddleware.execute cfg s now e ctx next).state
            = (match (next ctx).1 with
               | EventResult.Success _ =>
                   CircuitBreakerMiddleware.record_success cfg
                     { s with state := CircuitState.HalfOpen,
                              success_count := 0 }
               | _ =>
                   CircuitBreakerMiddleware.record_failure cfg
                     { s with state := CircuitState.HalfOpen,
                              success_count := 0 } now))
    ∧ (s.state = CircuitState.HalfOpen →
        (cfg.success_threshold ≤ s.success_count + 1 →
          CircuitBreakerMiddleware.record_success cfg s
            = ⟨CircuitState.Closed, 0, 0, s.last_failure_time, none⟩)
        ∧ (¬ cfg.success_threshold ≤ s.success_count + 1 →
          (CircuitBreakerMiddleware.record_success cfg s).state
              = CircuitState.HalfOpen
          ∧ (CircuitBreakerMiddleware.record_success cfg s).success_count
              = s.success_count + 1
          ∧ (CircuitBreakerMiddleware.record_success cfg s).failure_count = 0))
    ∧ (s.state = CircuitState.HalfOpen →
        (CircuitBreakerMiddleware.record_failure cfg s now).state
            = CircuitState.Open
        ∧ (CircuitBreakerMiddleware.record_failure cfg s now).opened_at
            = some now
        ∧ (CircuitBreakerMiddleware.record_failure cfg s now).success_count
            = 0) := by
  obtain ⟨st, fc, sc, lft, oa⟩ := s
  refine ⟨?_, ?_, ?_, ?_, ?_⟩
  · intro h
    cases h
    refine ⟨?_, ?_, ?_⟩
    · constructor
      · intro hopen
        by_contra hlt
        simp [CircuitBreakerMiddleware.record_failure, hlt] at hopen
      · intro hth
        simp [CircuitBreakerMiddleware.record_failure, hth]
    · intro hopen
      by_cases hth : cfg.failure_threshold ≤ fc + 1
      · simp [CircuitBreakerMiddleware.record_failure, hth]
      · simp [CircuitBreakerMiddleware.record_failure, hth] at hopen
    · intro hth
      simp [CircuitBreakerMiddleware.record_failure, hth]
  · intro h
    cases h
    simp [CircuitBreakerMiddleware.record_success]
  · intro Ctx e ctx next t h hoa hto
    cases h
    cases hoa
    have hreset : CircuitBreakerMiddleware.should_attempt_reset cfg
        ⟨CircuitState.Open, fc, sc, lft, some t⟩ now = true := by
      simp [CircuitBreakerMiddleware.should_attempt_reset, hto]
    constructor
    · simp only [CircuitBreakerMiddleware.execute, hreset, if_true]
    · simp only [CircuitBreakerMiddleware.execute, hreset, if_true]
  · intro h
    cases h
    refine ⟨?_, ?_⟩
    · intro hth
      simp [CircuitBreakerMiddleware.record_success, hth]
    · intro hth
      simp [CircuitBreakerMiddleware.record_success, hth]
  · intro h
    cases h
    simp [CircuitBreakerMiddleware.record_failure]

/-- Witness for C6: a breaker with `failure_threshold = 2` at one prior
failure opens on the next failure recording `opened_at`, and an Open breaker
whose timeout has elapsed invokes downstream on the next call. -/
theorem circuit_breaker_state_machine_witness :
    (CircuitBreakerMiddleware.record_failure ⟨2, 1, 10⟩
        ⟨CircuitState.Closed, 1, 0, none, none⟩ 5).state = CircuitState.Open
    ∧ (CircuitBreakerMiddleware.record_failure ⟨2, 1, 10⟩
        ⟨CircuitState.Closed, 1, 0, none, none⟩ 5).opened_at = some 5
    ∧ (CircuitBreakerMiddleware.execute ⟨2, 1, 10⟩
        ⟨CircuitState.Open, 2, 0, some 3, some 3⟩ 15 wOkEvent ()
        (fun c => (EventResult.Success (), c))).invoked = true := by
  have h1 := (circuit_breaker_state_machine ⟨2, 1, 10⟩
    ⟨CircuitState.Closed, 1, 0, none, none⟩ 5).1 rfl
  have hopen := h1.1.mpr (by decide)
  have h3 := (circuit_breaker_state_machine ⟨2, 1, 10⟩
    ⟨CircuitState.Open, 2, 0, some 3, some 3⟩ 15).2.2.1 Unit wOkEvent ()
    (fun c => (EventResult.Success (), c)) 3 rfl rfl (by decide)
  exact ⟨hopen, h1.2.1 hopen, h3.1⟩

/-! ## Claim theorem: protective rejections are business failures -/

/-- C7: while the circuit is Open and the open timeout has not elapsed, the
circuit breaker returns a business `Failure` (never an
`InfrastructureFailure`) without invoking downstream and without touching
its state; a Block-strategy rate limiter whose bucket holds less than one
token after refill returns the business `Failure("Rate limit exceeded")`
without invoking downstream; and concretely, with `max_tokens = 1` and
`refill_rate = 1/s`, a first call is admitted and an immediately-following
second call is rejected with that business failure. -/
theorem breaker_and_limiter_reject_as_business (cfg : CircuitBreakerConfig)
    (s : CircuitBreakerState) (now : Nat) :
    (∀ (Ctx : Type) (e : Event Ctx) (ctx : Ctx)
        (next : Ctx → EventResult Unit × Ctx),
      s.state = CircuitState.Open →
      (∀ t, s.opened_at = some t → now - t < cfg.timeout) →
      CircuitBreakerMiddleware.execute cfg s now e ctx next
        = ⟨EventResult.Failure ("Circuit breaker is OPEN for " ++ e.name),
           ctx, s, false⟩)
    ∧ (∀ (b : RateLimiter) (t : Rat) (Ctx : Type) (ctx : Ctx)
        (next : Ctx → EventResult Unit × Ctx),
        (b.refill t).tokens < 1 →
        RateLimitMiddleware.execute b t ctx next
          = ⟨EventResult.Failure "Rate limit exceeded", ctx, b.refill t,
             false⟩)
    ∧ (∀ (t0 : Rat) (Ctx : Type) (ctx ctx2 : Ctx)
        (next next2 : Ctx → EventResult Unit × Ctx),
        (RateLimitMiddleware.execute (RateLimiter.new 1 1 t0) t0 ctx
            next).invoked = true
        ∧ (RateLimitMiddleware.execute
            (RateLimitMiddleware.execute (RateLimiter.new 1 1 t0) t0 ctx
              next).bucket t0 ctx2 next2).result
            = EventResult.Failure "Rate limit exceeded"
        ∧ (RateLimitMiddleware.execute
            (RateLimitMiddleware.execute (RateLimiter.new 1 1 t0) t0 ctx
              next).bucket t0 ctx2 next2).invoked = false) := by
  refine ⟨?_, ?_, ?_⟩
  · intro Ctx e ctx next hopen hnoto
    obtain ⟨st, fc, sc, lft, oa⟩ := s
    cases hopen
    have hreset : CircuitBreakerMiddleware.should_attempt_reset cfg
        ⟨CircuitState.Open, fc, sc, lft, oa⟩ now = false := by
      cases oa with
      | none => simp [CircuitBreakerMiddleware.should_attempt_reset]
      | some t =>
          have := hnoto t rfl
          simp [CircuitBreakerMiddleware.should_attempt_reset]
          omega
    simp only [CircuitBreakerMiddleware.execute, hreset, Bool.false_eq_true,
      if_false]
  · intro b t Ctx ctx next hlt
    have hc : RateLimiter.try_consume_block b t = (false, b.refill t) := by
      rw [RateLimiter.try_consume_block, if_neg (by exact not_le.mpr hlt)]
    simp [RateLimitMiddleware.execute, hc]
  · intro t0 Ctx ctx ctx2 next next2
    have hb : RateLimiter.refill (RateLimiter.new 1 1 t0) t0
        = RateLimiter.new 1 1 t0 := by
      rw [RateLimiter.refill]
      simp [RateLimiter.new]
    have hc1 : RateLimiter.try_consume_block (RateLimiter.new 1 1 t0) t0
        = (true, ⟨0, 1, 1, t0⟩) := by
      rw [RateLimiter.try_consume_block, hb]
      norm_num [RateLimiter.new]
    have hfirst : RateLimitMiddleware.execute (RateLimiter.new 1 1 t0) t0 ctx
        next = ⟨(next ctx).1, (next ctx).2, ⟨0, 1, 1, t0⟩, true⟩ := by
      simp [RateLimitMiddleware.execute, hc1]
    have hb2 : RateLimiter.refill ⟨0, 1, 1, t0⟩ t0 = ⟨0, 1, 1, t0⟩ := by
      rw [RateLimiter.refill]
      simp
    have hc2 : RateLimiter.try_consume_block ⟨0, 1, 1, t0⟩ t0
        = (false, ⟨0, 1, 1, t0⟩) := by
      rw [RateLimiter.try_consume_block, hb2]
      norm_num
    refine ⟨by rw [hfirst], ?_, ?_⟩ <;>
      rw [hfirst] <;> simp [RateLimitMiddleware.execute, hc2]

/-- Witness for C7: an Open breaker whose timeout has not elapsed rejects
with a business failure and without a downstream call; a bucket holding half
a token rejects with the rate-limit business failure; the 1-token/1-per-second
bucket admits the first call and rejects the immediate second one. -/
theorem breaker_and_limiter_reject_as_business_witness :
    CircuitBreakerMiddleware.execute ⟨5, 2, 60⟩
        ⟨CircuitState.Open, 5, 0, some 3, some 3⟩ 10 wOkEvent ()
        (fun c => (EventResult.Success (), c))
      = ⟨EventResult.Failure "Circuit breaker is OPEN for ok", (),
         ⟨CircuitState.Open, 5, 0, some 3, some 3⟩, false⟩
    ∧ RateLimitMiddleware.execute ⟨1/2, 1, 1, 0⟩ 0 ()
        (fun c => (EventResult.Success (), c))
      = ⟨EventResult.Failure "Rate limit exceeded", (),
         RateLimiter.refill ⟨1/2, 1, 1, 0⟩ 0, false⟩
    ∧ (RateLimitMiddleware.execute (RateLimiter.new 1 1 0) 0 ()
        (fun c => (EventResult.Success (), c))).invoked = true := by
  have h := breaker_and_limiter_reject_as_business ⟨5, 2, 60⟩
    ⟨CircuitState.Open, 5, 0, some 3, some 3⟩ 10
  refine ⟨?_, ?_, ?_⟩
  · exact h.1 Unit wOkEvent () (fun c => (EventResult.Success (), c)) rfl
      (fun t ht => by injection ht with h2; subst h2; decide)
  · exact h.2.1 ⟨1/2, 1, 1, 0⟩ 0 Unit ()
      (fun c => (EventResult.Success (), c))
      (by rw [RateLimiter.refill]; norm_num)
  · exact (h.2.2 0 Unit () () (fun c => (EventResult.Success (), c))
      (fun c => (EventResult.Success (), c))).1

/-! ## Claim theorems: metrics middleware -/

/-- C8: `MetricsMiddleware::execute` invokes downstream and then updates the
per-event aggregate under its lock: if the lock is acquired the aggregate
for the event's name absorbs the measured duration and success flag and the
downstream outcome is returned; if the lock fails and the middleware is
critical (`fail_on_lock_error = true`, which is the `new()` default) it
returns `InfrastructureFailure`; if non-critical it swallows the recording
failure and returns the original downstream outcome with the map
unchanged. -/
theorem metrics_records_or_fails_by_policy (fail_on_lock_error lockOk : Bool)
    (duration : Nat) (m : MetricsMap) (Ctx : Type) (e : Event Ctx)
    (ctx : Ctx) (next : Ctx → EventResult Unit × Ctx) :
    (lockOk = true →
      MetricsMiddleware.execute fail_on_lock_error lockOk duration m e ctx next
        = ⟨(next ctx).1, (next ctx).2,
           MetricsMap.recordIn m e.name duration (next ctx).1.is_success⟩)
    ∧ (lockOk = false → fail_on_lock_error = true →
        MetricsMiddleware.execute fail_on_lock_error lockOk duration m e ctx
            next
          = ⟨EventResult.MiddlewareFailure
              ("Metrics infrastructure failure: could not record metrics for "
                ++ e.name), (next ctx).2, m⟩)
    ∧ (lockOk = false → fail_on_lock_error = false →
        MetricsMiddleware.execute fail_on_lock_error lockOk duration m e ctx
            next
          = ⟨(next ctx).1, (next ctx).2, m⟩)
    ∧ MetricsMiddleware.new_fail_on_lock_error = true := by
  refine ⟨?_, ?_, ?_, rfl⟩
  · intro h
    subst h
    simp [MetricsMiddleware.execute]
  · intro h1 h2
    subst h1
    subst h2
    simp [MetricsMiddleware.execute]
  · intro h1 h2
    subst h1
    subst h2
    simp [MetricsMiddleware.execute]

/-- Witness for C8: with an acquired lock the outcome passes through and the
map gains the event's aggregate; with a failed lock and the critical default
the result is the infrastructure failure. -/
theorem metrics_records_or_fails_by_policy_witness :
    MetricsMiddleware.execute true true 7 [] wOkEvent ()
        (fun c => (EventResult.Success (), c))
      = ⟨EventResult.Success (), (),
         MetricsMap.recordIn [] "ok" 7 true⟩
    ∧ MetricsMiddleware.execute true false 7 [] wOkEvent ()
        (fun c => (EventResult.Success (), c))
      = ⟨EventResult.MiddlewareFailure
          "Metrics infrastructure failure: could not record metrics for ok",
         (), []⟩ := by
  have h := metrics_records_or_fails_by_policy true true 7 [] Unit wOkEvent ()
    (fun c => (EventResult.Success (), c))
  have h2 := metrics_records_or_fails_by_policy true false 7 [] Unit wOkEvent
    () (fun c => (EventResult.Success (), c))
  exact ⟨h.1 rfl, h2.2.1 rfl rfl⟩

/-- A concrete counting event over a `Nat` context, used by witnesses. -/
def wNatEvent : Event Nat := ⟨"nat", fun n => (EventResult.Success (), n)⟩

/-- C10: `MetricsMiddleware::execute` applies the downstream continuation
exactly once before attempting to record (with a counting continuation the
context advances by exactly one step), and when recording fails with
`fail_on_lock_error = true` the returned `InfrastructureFailure` replaces
the downstream outcome even when that outcome was `Success` — the
downstream's context mutation has already taken effect while its Success is
discarded. -/
theorem metrics_invokes_once_and_discards_success
    (fail_on_lock_error lockOk : Bool) (duration : Nat) (m : MetricsMap) :
    (∀ (e : Event Nat) (n0 : Nat) (f : Nat → EventResult Unit),
      (MetricsMiddleware.execute fail_on_lock_error lockOk duration m e n0
        (fun n => (f n, n + 1))).ctx = n0 + 1)
    ∧ (∀ (Ctx : Type) (e : Event Ctx) (ctx : Ctx)
        (next : Ctx → EventResult Unit × Ctx),
        lockOk = false → fail_on_lock_error = true →
        (next ctx).1 = EventResult.Success () →
        (MetricsMiddleware.execute fail_on_lock_error lockOk duration m e ctx
            next).result
          = EventResult.MiddlewareFailure
              ("Metrics infrastructure failure: could not record metrics for "
                ++ e.name)
        ∧ (MetricsMiddleware.execute fail_on_lock_error lockOk duration m e
            ctx next).ctx = (next ctx).2
        ∧ (MetricsMiddleware.execute fail_on_lock_error lockOk duration m e
            ctx next).result ≠ (next ctx).1) := by
  constructor
  · intro e n0 f
    cases lockOk <;> cases fail_on_lock_error <;>
      simp [MetricsMiddleware.execute]
  · intro Ctx e ctx next h1 h2 hsucc
    subst h1
    subst h2
    refine ⟨by simp [MetricsMiddleware.execute], ?_, ?_⟩
    · simp [MetricsMiddleware.execute]
    · simp [MetricsMiddleware.execute, hsucc]

/-- Witness for C10: with a counting continuation returning Success and a
failed lock under the critical default, the context still advances by one
while the Success is replaced by the infrastructure failure. -/
theorem metrics_invokes_once_and_discards_success_witness :
    (MetricsMiddleware.execute true false 7 [] wNatEvent 0
        (fun n => (EventResult.Success (), n + 1))).ctx = 1
    ∧ (MetricsMiddleware.execute true false 7 [] wNatEvent 0
        (fun n => (EventResult.Success (), n + 1))).result
      = EventResult.MiddlewareFailure
          "Metrics infrastructure failure: could not record metrics for nat" := by
  have h := metrics_invokes_once_and_discards_success true false 7 []
  exact ⟨h.1 wNatEvent 0 (fun _ => EventResult.Success ()),
    (h.2 Nat wNatEvent 0 (fun n => (EventResult.Success (), n + 1))
      rfl rfl rfl).1⟩

end EventChains
